import Mathlib

/-!
# Destination Scanner: offer pipeline, formalized

A shallow embedding of the offer normalization / validation / scoring /
recommendation pipeline of `src/services/flightProvider.ts` (constants from
`src/constants.ts`), together with theorems settling the frozen claims about
that pipeline.

Modelling conventions:
* JavaScript numbers are modelled as exact rationals (`ℚ`); `Math.round` is
  `jround` (round half toward `+∞`), `Math.floor` on a rational is
  `Rat.floor`.
* JavaScript code that can throw a `TypeError` (an unguarded access such as
  `offer.slices[0].segments[0]`) is modelled in `Option`: `none` is the
  thrown exception, `some` the normal return.
* Impure inputs (the random identifier, clock timestamps, `Math.random()`)
  are passed in explicitly: the random stream is a function `ℕ → ℚ`
  consumed at an explicit cursor, exactly in the order the source draws.
* In-place mutation of `offer.validation` is modelled by returning the
  offer with the updated field (the source returns the mutated argument).
-/

namespace DestinationScanner

/-- JS `Math.round`: round half toward plus infinity. -/
def jround (x : ℚ) : ℤ := (x + 1/2).floor

/-! ## Constants (`src/constants.ts`) -/

def USD_TO_PHP : ℚ := 56.45

def PRICE_WEIGHT : ℚ := 0.75

def QUALITY_WEIGHT : ℚ := 0.25

/-- `IMPOSSIBLE_PH_SFO_PRICE` in `flightProvider.ts`. -/
def IMPOSSIBLE_PH_SFO_PRICE : ℚ := 15000

def AIRLINES : List String :=
  ["Philippine Airlines", "Cebu Pacific", "AirAsia", "Singapore Airlines",
   "Japan Airlines", "Cathay Pacific", "EVA Air", "Korean Air", "Qantas", "Emirates"]

def MONTH_NAMES : List String :=
  ["January", "February", "March", "April", "May", "June",
   "July", "August", "September", "October", "November", "December"]

/-! ## Data model (`src/types.ts` as used by the provider) -/

structure Passengers where
  adults : ℕ
  children : ℕ
  infantsInSeat : ℕ
  infantsOnLap : ℕ
deriving DecidableEq

structure FlightSegment where
  carrierIata : String
  flightNumber : String
  fromIata : String
  toIata : String
  departAt : String
  arriveAt : String
  durationMin : ℚ
deriving DecidableEq

structure FlightSlice where
  direction : String
  totalDurationMin : ℚ
  stopsCount : ℚ
  segments : List FlightSegment
deriving DecidableEq

inductive ValidationStatus where
  | VALID
  | QUARANTINED
deriving DecidableEq

inductive PriceConfidence where
  | HIGH
  | MEDIUM
  | LOW
deriving DecidableEq

structure OfferValidation where
  status : ValidationStatus
  reasonCodes : List String
  confidence : PriceConfidence
deriving DecidableEq

structure OfferPrice where
  total : ℚ
  currency : String
  totalPHP : ℚ
  fxRate : ℚ
  fxTimestamp : String
  includesTaxesAndFees : Bool
deriving DecidableEq

structure OfferMeta where
  isSeparateTickets : Bool
  isLcc : Bool
  baggageUnknown : Bool
deriving DecidableEq

structure OfferCanonical where
  id : String
  provider : String
  tripType : String
  originIata : String
  destinationIata : String
  departDate : String
  returnDate : String
  passengers : Passengers
  cabin : String
  price : OfferPrice
  slices : List FlightSlice
  meta : OfferMeta
  validation : OfferValidation
deriving DecidableEq

/-- The loosely-typed raw offer record consumed by `normalizeOffer`
(the shape produced by `generateRawMockOffers`). -/
structure RawOffer where
  origin : String
  dest : String
  city : String
  departDate : String
  returnDate : String
  passengers : Passengers
  cabin : String
  basePriceUsd : ℚ
  slices : List FlightSlice
  isSeparate : Bool
  isLcc : Bool
deriving DecidableEq

/-! ## Offer normalizer (`flightProvider.ts`, `normalizeOffer`, lines 113-148) -/

/-- `pMult` of `normalizeOffer`:
`adults + children*0.75 + (infantsInSeat+infantsOnLap)*0.1`. -/
def passengerMultiplier (p : Passengers) : ℚ :=
  (p.adults : ℚ) + (p.children : ℚ) * 0.75 +
    ((p.infantsInSeat : ℚ) + (p.infantsOnLap : ℚ)) * 0.1

/-- `normalizeOffer`. The random offer id and the FX clock timestamp are
impure in the source and are taken here as explicit inputs `oid`, `fxTs`. -/
def normalizeOffer (oid fxTs : String) (raw : RawOffer) : OfferCanonical :=
  let passengers := raw.passengers
  let pMult := passengerMultiplier passengers
  let totalPHP : ℚ := (jround (raw.basePriceUsd * pMult * USD_TO_PHP) : ℚ)
  { id := oid
    provider := "AtlasProvider"
    tripType := "round_trip"
    originIata := raw.origin
    destinationIata := raw.dest
    departDate := raw.departDate
    returnDate := raw.returnDate
    passengers := passengers
    cabin := raw.cabin
    price :=
      { total := (jround (raw.basePriceUsd * pMult) : ℚ)
        currency := "USD"
        totalPHP := totalPHP
        fxRate := USD_TO_PHP
        fxTimestamp := fxTs
        includesTaxesAndFees := true }
    slices := raw.slices
    meta :=
      { isSeparateTickets := raw.isSeparate
        isLcc := raw.isLcc
        baggageUnknown := false }
    validation :=
      { status := .VALID
        reasonCodes := []
        confidence := .HIGH } }

/-! ## Offer validator (`flightProvider.ts`, `validateOffer`, lines 150-199) -/

/-- The long-haul destination test of rule 1/2:
`dest === 'SFO' || dest === 'LAX' || dest === 'JFK' || dest === 'LHR' || dest === 'CDG' || dest === 'FCO'`. -/
def isLongHaulDest (dest : String) : Bool :=
  dest == "SFO" || dest == "LAX" || dest == "JFK" || dest == "LHR" ||
    dest == "CDG" || dest == "FCO"

/-- Rule 4 (segment continuity) for one slice: one
`INVALID_SEGMENT_CONNECTION` per segment (after the first) whose origin
differs from the previous segment's destination. -/
def segmentConnectionReasons (segs : List FlightSegment) : List String :=
  (segs.zip segs.tail).filterMap fun pr =>
    if pr.1.toIata ≠ pr.2.fromIata then some "INVALID_SEGMENT_CONNECTION" else none

/-- Rule 4 over all slices, in slice order. -/
def sliceConnectionReasons (slices : List FlightSlice) : List String :=
  (slices.map fun s => segmentConnectionReasons s.segments).flatten

/-- The `reasons` array as pushed by rules 1-4 (lines 157-185), in push
order, with `airline` the first outbound segment's carrier read at
line 155. -/
def offerReasons (offer : OfferCanonical) (airline : String) : List String :=
  (if isLongHaulDest offer.destinationIata then
      (if airline = "5J" ∨ airline = "AK" then ["INVALID_CARRIER_FOR_DISTANCE"] else []) ++
        (if offer.price.totalPHP < IMPOSSIBLE_PH_SFO_PRICE then
          ["OUTLIER_HARD_PRICE_TOO_LOW"] else [])
    else []) ++
  (if offer.tripType = "round_trip" ∧ offer.slices.length < 2 then
      ["MISSING_INBOUND_SLICE"] else []) ++
  sliceConnectionReasons offer.slices

/-- The verdict `validateOffer` leaves on the offer (lines 187-196): the
hard quarantine when any reason fired, then the soft outlier check, which
the source applies unconditionally afterwards. -/
def verdictFor (offer : OfferCanonical) (airline : String) : OfferValidation :=
  let reasons := offerReasons offer airline
  let afterHard : OfferValidation :=
    if 0 < reasons.length then
      { status := .QUARANTINED, reasonCodes := reasons, confidence := .LOW }
    else offer.validation
  if offer.price.totalPHP < 5000 ∧ offer.destinationIata ≠ "SIN" ∧
      offer.destinationIata ≠ "HKG" ∧ offer.destinationIata ≠ "TPE" then
    { afterHard with confidence := .MEDIUM }
  else afterHard

/-- `validateOffer`. `none` models the `TypeError` thrown by
`offer.slices[0].segments[0].carrierIata` (line 155) when the offer has no
slice or its first slice has no segment; `some` is the normal return of the
(mutated) offer. -/
def validateOffer (offer : OfferCanonical) : Option OfferCanonical :=
  match offer.slices with
  | [] => none
  | s0 :: _ =>
    match s0.segments with
    | [] => none
    | seg0 :: _ => some { offer with validation := verdictFor offer seg0.carrierIata }

/-! ## Offer scorer (`flightProvider.ts`, `calculateOfferScore`, lines 201-211) -/

/-- `calculateOfferScore`; `none` models the `TypeError` on an offer with no
slices (`offer.slices[0].stopsCount`), while `offer.slices[1]?` is an
optional access defaulting to 0. -/
def calculateOfferScore (offer : OfferCanonical) : Option ℚ :=
  match offer.slices with
  | [] => none
  | s0 :: rest =>
    let p := offer.price.totalPHP
    let stops := s0.stopsCount + ((rest.head?.map FlightSlice.stopsCount).getD 0)
    let duration := s0.totalDurationMin + ((rest.head?.map FlightSlice.totalDurationMin).getD 0)
    let normPrice := p / 50000
    let normQuality := stops * 5 + duration / 600
    some (PRICE_WEIGHT * normPrice + QUALITY_WEIGHT * normQuality)

/-- `totalStops` of line 203: the outbound slice's stop count plus the
inbound slice's if present (`offer.slices[1]?.stopsCount || 0`). -/
def offerTotalStops (offer : OfferCanonical) : Option ℚ :=
  match offer.slices with
  | [] => none
  | s0 :: rest => some (s0.stopsCount + ((rest.head?.map FlightSlice.stopsCount).getD 0))

/-- `totalDurationMin` of line 204, summed the same way. -/
def offerTotalDuration (offer : OfferCanonical) : Option ℚ :=
  match offer.slices with
  | [] => none
  | s0 :: rest => some (s0.totalDurationMin + ((rest.head?.map FlightSlice.totalDurationMin).getD 0))

/-! ## Monthly recommendation engine (`flightProvider.ts`, `getMonthlyRecommendations`)

The engine has two separable pieces the claims target: the per-country
aggregation of validated offers (lines 26-58), and the per-month winner
selection under the diversification cap (lines 62-74). Each is embedded
over its inputs; the surrounding loops supply them. -/

/-- `Country` of `src/constants.ts`. -/
structure Country where
  code : String
  name : String
  flag : String
  popularityScore : ℚ
deriving DecidableEq

/-- A tracked query (`src/types.ts`), the engine's input. -/
structure TrackedQuery where
  id : String
  origin : String
  tripLengthNights : ℕ
  cabin : String
  maxStops : ℕ
  diversify : Bool
  passengers : Passengers
deriving DecidableEq

/-- One element of the month's `candidates` array (line 24):
`{ country, cheapest, recommended, score }`. -/
structure Candidate where
  country : Country
  cheapest : OfferCanonical
  recommended : OfferCanonical
  score : ℚ
deriving DecidableEq

/-- Stable insertion into a score-ascending list (an earlier element keeps
its place on ties), the effect of the stable
`candidates.sort((a, b) => a.score - b.score)` of line 62. -/
def insertCand (x : Candidate) : List Candidate → List Candidate
  | [] => [x]
  | y :: ys => if y.score < x.score then y :: insertCand x ys else x :: y :: ys

/-- Stable ascending-by-score sort (line 62). -/
def sortCands : List Candidate → List Candidate
  | [] => []
  | x :: xs => insertCand x (sortCands xs)

/-- Lines 63-72 applied to the sorted candidate list: the winner is
`candidates[0]`, unless diversification is on and some candidate's country
is under the cap of 2, in which case the first such candidate wins. -/
def pickWinner (diversify : Bool) (sorted : List Candidate)
    (usage : String → ℕ) : Option Candidate :=
  match sorted with
  | [] => none
  | c0 :: rest =>
    if diversify then
      match (c0 :: rest).find? (fun c => usage c.country.code < 2) with
      | some c => some c
      | none => some c0
    else some c0

/-- Line 74: `countryUsage[winner.country.code] = (countryUsage[...] || 0) + 1`. -/
def bumpUsage (u : String → ℕ) (code : String) : String → ℕ :=
  fun k => if k = code then u k + 1 else u k

/-- The usage counter after one month: unchanged when the month had no
candidates, bumped at the winner's country otherwise. -/
def stepUsage (diversify : Bool) (u : String → ℕ) (pool : List Candidate) :
    String → ℕ :=
  match pickWinner diversify (sortCands pool) u with
  | none => u
  | some w => bumpUsage u w.country.code

/-- The month loop of lines 23-83 restricted to winner selection: given each
month's candidate pool, the list of month winners (months with an empty pool
are skipped, line 60). -/
def runBuild (diversify : Bool) (u : String → ℕ) :
    List (List Candidate) → List Candidate
  | [] => []
  | pool :: rest =>
    match pickWinner diversify (sortCands pool) u with
    | none => runBuild diversify u rest
    | some w => w :: runBuild diversify (bumpUsage u w.country.code) rest

/-- The usage counter as it stands when month `n` is about to be selected. -/
def usageAfter (diversify : Bool) (u : String → ℕ) :
    List (List Candidate) → ℕ → (String → ℕ)
  | _, 0 => u
  | [], _ + 1 => u
  | pool :: rest, n + 1 => usageAfter diversify (stepUsage diversify u pool) rest n

/-- The winner selected for month `n` (`none` for an empty pool). -/
def winnerAt (diversify : Bool) (u : String → ℕ) :
    List (List Candidate) → ℕ → Option Candidate
  | [], _ => none
  | pool :: _, 0 => pickWinner diversify (sortCands pool) u
  | pool :: rest, n + 1 => winnerAt diversify (stepUsage diversify u pool) rest n

/-- How many months a country's code wins across a build. -/
def winCount (code : String) (ws : List Candidate) : ℕ :=
  (ws.filter fun w => w.country.code == code).length

/-- The fresh counter of line 21: `const countryUsage = {}`. -/
def zeroUsage : String → ℕ := fun _ => 0

/-! ## Per-country aggregation (`getMonthlyRecommendations`, lines 26-58) -/

/-- Lines 35-44 over the normalized offer stream of one country: validate
each offer, keep those whose verdict is `VALID`; `none` models a
`TypeError` escaping from `validateOffer`. -/
def collectValid : List OfferCanonical → Option (List OfferCanonical)
  | [] => some []
  | o :: rest => do
    let v ← validateOffer o
    let vs ← collectValid rest
    if v.validation.status = .VALID then pure (v :: vs) else pure vs

/-- The element of `x :: xs` that a stable ascending sort by `f` puts first:
the earliest element of minimum `f`-value. Models `sort(...)[0]` of
lines 54-55. -/
def firstMinBy {α : Type} (f : α → ℚ) (x : α) (xs : List α) : α :=
  xs.foldl (fun best y => if f y < f best then y else best) x

/-- The per-country candidate record pushed at line 57 (minus the country
tag, which the caller supplies). -/
structure CountryCandidate where
  cheapest : OfferCanonical
  recommended : OfferCanonical
  score : ℚ
deriving DecidableEq

/-- Lines 28-57 for one country given its normalized offer stream:
`some none` = the country is dropped for the month (no valid offer,
line 46), `some (some cand)` = its candidate, `none` = a thrown
`TypeError`. -/
def countryStep (offers : List OfferCanonical) :
    Option (Option CountryCandidate) := do
  let valids ← collectValid offers
  match valids with
  | [] => pure none
  | v0 :: vs => do
    let scored ← (v0 :: vs).mapM fun o => (calculateOfferScore o).map fun s => (o, s)
    match scored with
    | [] => pure none
    | s0 :: ss =>
      let cheapest := firstMinBy (fun o => o.price.totalPHP) v0 vs
      let recommended := (firstMinBy (fun pr => pr.2) s0 ss).1
      let recScore ← calculateOfferScore recommended
      pure (some { cheapest := cheapest, recommended := recommended, score := recScore })

/-! ## Raw-offer generator (`flightProvider.ts`, `generateRawMockOffers`,
lines 213-284)

`Math.random()` is modelled as a stream `rng : ℕ → ℚ` read at an explicit
cursor, one draw per `Math.random()` call in source order: per offer, one
draw for the airline index, one for the base price, one more overwriting the
base price when the destination is long-haul, and one for the
fault-injection test. -/

/-- `String(n).padStart(2, '0')`. -/
def pad2 (n : ℕ) : String := (if n < 10 then "0" else "") ++ toString n

/-- Does `hay` start with `pat`? -/
def charsLeadWith : List Char → List Char → Bool
  | _, [] => true
  | [], _ :: _ => false
  | a :: as, b :: bs => a == b && charsLeadWith as bs

/-- Does `hay` contain `pat` as a contiguous run? -/
def charsContain : List Char → List Char → Bool
  | [], pat => pat.isEmpty
  | hay@(_ :: t), pat => charsLeadWith hay pat || charsContain t pat

/-- JS `s.includes(pat)`. -/
def strIncludes (s pat : String) : Bool := charsContain s.toList pat.toList

/-- The carrier-IATA cascade of lines 224-228. -/
def carrierForAirline (airlineName : String) : String :=
  let c := "PR"
  let c := if strIncludes airlineName "Cebu" then "5J" else c
  let c := if strIncludes airlineName "AirAsia" then "AK" else c
  let c := if strIncludes airlineName "Singapore" then "SQ" else c
  let c := if strIncludes airlineName "Japan" then "JL" else c
  c

/-- One iteration of the `for (let i = 0; i < 3; i++)` loop of lines
219-281: the raw offer and the advanced random cursor. -/
def genOneRawOffer (params : TrackedQuery) (destIata destCity : String)
    (departDate returnDate : String) (rng : ℕ → ℚ) (i k : ℕ) : RawOffer × ℕ :=
  let airlineIdx := ((rng k * (AIRLINES.length : ℚ)).floor).toNat
  let airlineName := AIRLINES.getD airlineIdx ""
  let carrierIata := carrierForAirline airlineName
  let isLongHaul := ["SFO", "LAX", "JFK", "LHR", "CDG", "FCO"].contains destIata
  let base0 : ℚ := 200 + rng (k + 1) * 800
  let priced : ℚ × ℕ := if isLongHaul then (700 + rng (k + 2) * 1000, k + 3) else (base0, k + 2)
  let fault := decide (rng priced.2 < 0.1) && isLongHaul
  let basePriceUsd := if fault then (150 : ℚ) else priced.1
  let carrier := if fault then "5J" else carrierIata
  let dur : ℚ := if isLongHaul then 900 else 200
  let stops : ℚ := if isLongHaul then 1 else 0
  ({ origin := params.origin
     dest := destIata
     city := destCity
     departDate := departDate
     returnDate := returnDate
     passengers := params.passengers
     cabin := params.cabin
     basePriceUsd := basePriceUsd
     slices :=
       [{ direction := "outbound", totalDurationMin := dur, stopsCount := stops
          segments := [{ carrierIata := carrier
                         flightNumber := carrier ++ toString (100 + i)
                         fromIata := params.origin, toIata := destIata
                         departAt := departDate ++ "T10:00:00"
                         arriveAt := departDate ++ "T15:00:00"
                         durationMin := dur }] },
        { direction := "inbound", totalDurationMin := dur, stopsCount := stops
          segments := [{ carrierIata := carrier
                         flightNumber := carrier ++ toString (200 + i)
                         fromIata := destIata, toIata := params.origin
                         departAt := returnDate ++ "T10:00:00"
                         arriveAt := returnDate ++ "T15:00:00"
                         durationMin := dur }] }]
     isSeparate := false
     isLcc := false }, priced.2 + 1)

/-- `generateRawMockOffers`: the three generated offers and the advanced
random cursor. -/
def generateRawMockOffers (params : TrackedQuery) (month day : ℕ)
    (destIata destCity : String) (rng : ℕ → ℚ) (k : ℕ) : List RawOffer × ℕ :=
  let departDate := "2026-" ++ pad2 (month + 1) ++ "-" ++ pad2 day
  let returnDate := "2026-" ++ pad2 (month + 1) ++ "-" ++ pad2 (day + params.tripLengthNights)
  let r0 := genOneRawOffer params destIata destCity departDate returnDate rng 0 k
  let r1 := genOneRawOffer params destIata destCity departDate returnDate rng 1 r0.2
  let r2 := genOneRawOffer params destIata destCity departDate returnDate rng 2 r1.2
  ([r0.1, r1.1, r2.1], r2.2)

/-! ## Trend series builder (`flightProvider.ts`, `getYearlyTrend`,
lines 88-109) -/

structure MarketPricePoint where
  month : String
  monthName : String
  cheapest : ℚ
  recommended : ℚ
  verified : Option ℚ
  confidence : PriceConfidence
  updatedAt : String
deriving DecidableEq

/-- One month's point (lines 94-105): sample the first generated offer at
day 15, normalize and validate it, and read prices off it. `oid`, `fxTs`,
`nowTs` stand for the impure identifier and timestamps. `MONTH_NAMES.getD`
is total where the source indexes months 0-11 only. -/
def trendPoint (params : TrackedQuery) (destIata oid fxTs nowTs : String)
    (rng : ℕ → ℚ) (month k : ℕ) : Option (MarketPricePoint × ℕ) := do
  let gen := generateRawMockOffers params month 15 destIata "City" rng k
  let raw ← gen.1.head?
  let valid ← validateOffer (normalizeOffer oid fxTs raw)
  pure ({ month := "2026-" ++ pad2 (month + 1)
          monthName := (MONTH_NAMES.getD month "").take 3
          cheapest := valid.price.totalPHP
          recommended := (jround (valid.price.totalPHP * 1.1) : ℚ)
          verified := none
          confidence := valid.validation.confidence
          updatedAt := nowTs }, gen.2)

/-- The month loop of `getYearlyTrend`, from month `month`, `count` months
to go, random cursor at `k`. -/
def buildTrendAux (params : TrackedQuery) (destIata oid fxTs nowTs : String)
    (rng : ℕ → ℚ) : ℕ → ℕ → ℕ → Option (List MarketPricePoint)
  | _, 0, _ => some []
  | month, count + 1, k => do
    let pt ← trendPoint params destIata oid fxTs nowTs rng month k
    let rest ← buildTrendAux params destIata oid fxTs nowTs rng (month + 1) count pt.2
    pure (pt.1 :: rest)

/-- `getYearlyTrend`: the 12-point series. `none` models an escaping
`TypeError`. -/
def getYearlyTrend (params : TrackedQuery) (destIata oid fxTs nowTs : String)
    (rng : ℕ → ℚ) : Option (List MarketPricePoint) :=
  buildTrendAux params destIata oid fxTs nowTs rng 0 12 0

/-! ## Concrete fixtures

Canonical offers at which the claims are exercised: a well-formed
round-trip shell over one-segment slices, with the fields a given claim
varies passed in. -/

/-- A one-leg segment flown by `carrier` from `fromI` to `toI`. -/
def fixtureSegment (carrier fromI toI : String) : FlightSegment :=
  { carrierIata := carrier
    flightNumber := carrier ++ "100"
    fromIata := fromI
    toIata := toI
    departAt := "2026-05-01T10:00:00"
    arriveAt := "2026-05-01T15:00:00"
    durationMin := 200 }

/-- A nonstop one-segment slice. -/
def fixtureSlice (dir carrier fromI toI : String) : FlightSlice :=
  { direction := dir
    totalDurationMin := 200
    stopsCount := 0
    segments := [fixtureSegment carrier fromI toI] }

/-- A canonical round-trip MNL→`dest` offer on `carrier` with displayed
price `php`, fresh from normalization (verdict `VALID`/`HIGH`). -/
def fixtureOffer (dest carrier : String) (php : ℚ) : OfferCanonical :=
  { id := "offer-test"
    provider := "AtlasProvider"
    tripType := "round_trip"
    originIata := "MNL"
    destinationIata := dest
    departDate := "2026-05-01"
    returnDate := "2026-05-08"
    passengers := { adults := 1, children := 0, infantsInSeat := 0, infantsOnLap := 0 }
    cabin := "ECONOMY"
    price :=
      { total := 100
        currency := "USD"
        totalPHP := php
        fxRate := USD_TO_PHP
        fxTimestamp := "t0"
        includesTaxesAndFees := true }
    slices := [fixtureSlice "outbound" carrier "MNL" dest,
               fixtureSlice "inbound" carrier dest "MNL"]
    meta := { isSeparateTickets := false, isLcc := false, baggageUnknown := false }
    validation := { status := .VALID, reasonCodes := [], confidence := .HIGH } }

/-- A round-trip offer with an empty slice list. -/
def offerNoSlices : OfferCanonical := { fixtureOffer "NRT" "PR" 10000 with slices := [] }

/-- A round-trip offer whose single slice has no segments. -/
def offerEmptySegments : OfferCanonical :=
  { fixtureOffer "NRT" "PR" 10000 with
    slices := [{ direction := "outbound", totalDurationMin := 200, stopsCount := 0,
                 segments := [] }] }

/-- A raw offer on which single-step and two-step rounding disagree:
`basePriceUsd × passengerMultiplier = 86 × 1.75 = 150.5`. -/
def rawDoubleRound : RawOffer :=
  { origin := "MNL"
    dest := "NRT"
    city := "Tokyo"
    departDate := "2026-05-01"
    returnDate := "2026-05-08"
    passengers := { adults := 1, children := 1, infantsInSeat := 0, infantsOnLap := 0 }
    cabin := "ECONOMY"
    basePriceUsd := 86
    slices := [fixtureSlice "outbound" "PR" "MNL" "NRT",
               fixtureSlice "inbound" "PR" "NRT" "MNL"]
    isSeparate := false
    isLcc := false }

/-- The validated form of `offerSoftHard`: quarantined by the long-haul
price floor, confidence then overwritten to MEDIUM by the soft check. -/
def offerSoftHard : OfferCanonical := fixtureOffer "SFO" "PR" 4000

/-- What `validateOffer` actually returns on `offerSoftHard`. -/
def offerSoftHardValidated : OfferCanonical :=
  { offerSoftHard with
    validation :=
      { status := .QUARANTINED
        reasonCodes := ["OUTLIER_HARD_PRICE_TOO_LOW"]
        confidence := .MEDIUM } }

/-! # Theorems -/

/-! ## Validator basics -/

/-- On any offer with a first slice and first segment, `validateOffer`
returns the offer with the verdict of `verdictFor` attached. -/
theorem validateOffer_eq_of_shape (offer : OfferCanonical) (s0 : FlightSlice)
    (seg0 : FlightSegment) (rest : List FlightSlice) (segs : List FlightSegment)
    (hsl : offer.slices = s0 :: rest) (hsg : s0.segments = seg0 :: segs) :
    validateOffer offer = some { offer with validation := verdictFor offer seg0.carrierIata } := by
  simp only [validateOffer, hsl, hsg]

/-- A validated offer is the input offer with only the verdict replaced. -/
theorem validateOffer_shape (offer v : OfferCanonical) (h : validateOffer offer = some v) :
    ∃ val, v = { offer with validation := val } := by
  unfold validateOffer at h
  split at h
  · simp at h
  · split at h
    · simp at h
    · exact ⟨_, (Option.some_inj.mp h).symm⟩

/-- When any hard rule fired, the verdict is quarantined and carries
exactly the pushed reasons (the soft check touches only confidence). -/
theorem verdictFor_of_reasons_ne (offer : OfferCanonical) (airline : String)
    (h : offerReasons offer airline ≠ []) :
    (verdictFor offer airline).status = .QUARANTINED ∧
    (verdictFor offer airline).reasonCodes = offerReasons offer airline := by
  have hlen : 0 < (offerReasons offer airline).length := List.length_pos.mpr h
  simp only [verdictFor]
  rw [if_pos hlen]
  split <;> exact ⟨rfl, rfl⟩

/-- Rule 1 fires: a reserved low-cost carrier on a long-haul destination
puts `INVALID_CARRIER_FOR_DISTANCE` among the reasons. -/
theorem carrier_reason_mem (offer : OfferCanonical) (airline : String)
    (hair : airline = "5J" ∨ airline = "AK")
    (hdest : isLongHaulDest offer.destinationIata = true) :
    "INVALID_CARRIER_FOR_DISTANCE" ∈ offerReasons offer airline := by
  unfold offerReasons
  rw [if_pos hdest, if_pos hair]
  simp [List.mem_append]

/-- Rule 2 fires: a long-haul destination below the hard price floor puts
`OUTLIER_HARD_PRICE_TOO_LOW` among the reasons, whatever the carrier. -/
theorem price_reason_mem (offer : OfferCanonical) (airline : String)
    (hdest : isLongHaulDest offer.destinationIata = true)
    (hprice : offer.price.totalPHP < IMPOSSIBLE_PH_SFO_PRICE) :
    "OUTLIER_HARD_PRICE_TOO_LOW" ∈ offerReasons offer airline := by
  unfold offerReasons
  rw [if_pos hdest, if_pos hprice]
  split <;> simp [List.mem_append]

/-! ## C1 — normalizer rounding -/

/-- C1, counterexample: at `rawDoubleRound` (base USD total `150.5`) the
displayed total produced by `normalizeOffer` differs from the two-step
rounding `round(round(base × multiplier) × fxRate)` the claim states
(`8496` vs `8524`). -/
theorem normalizeOffer_double_rounding_cex :
    (normalizeOffer "offer-x" "t0" rawDoubleRound).price.totalPHP ≠
      (jround ((jround (rawDoubleRound.basePriceUsd *
        passengerMultiplier rawDoubleRound.passengers) : ℚ) * USD_TO_PHP) : ℚ) := by
  norm_num [normalizeOffer, passengerMultiplier, rawDoubleRound, jround,
    USD_TO_PHP, Rat.floor_def']

/-- C1, amended: the displayed (PHP) total is the single rounding
`round(basePrice × passengerMultiplier × fxRate)`; the USD `total` field is
separately `round(basePrice × passengerMultiplier)`; and the multiplier is
`adults + 0.75×children + 0.1×(infantsInSeat + infantsOnLap)`. -/
theorem normalizeOffer_price_rounding (oid fxTs : String) (raw : RawOffer) :
    (normalizeOffer oid fxTs raw).price.totalPHP =
      (jround (raw.basePriceUsd * passengerMultiplier raw.passengers * USD_TO_PHP) : ℚ) ∧
    (normalizeOffer oid fxTs raw).price.total =
      (jround (raw.basePriceUsd * passengerMultiplier raw.passengers) : ℚ) ∧
    passengerMultiplier raw.passengers =
      (raw.passengers.adults : ℚ) + 0.75 * (raw.passengers.children : ℚ) +
        0.1 * ((raw.passengers.infantsInSeat : ℚ) + (raw.passengers.infantsOnLap : ℚ)) := by
  refine ⟨rfl, rfl, ?_⟩
  unfold passengerMultiplier
  ring

/-! ## C2 — the soft check overwrites LOW (code bug) -/

/-- C2, failing input: `offerSoftHard` (destination SFO, displayed price
4000) trips the hard long-haul price floor, so the claim (and the spec)
require confidence LOW; the soft outlier check then runs without the
"already LOW" guard and overwrites it, so the code returns
QUARANTINED with confidence MEDIUM. -/
theorem validateOffer_soft_overwrites_low :
    validateOffer offerSoftHard = some offerSoftHardValidated ∧
    offerSoftHardValidated.validation.status = .QUARANTINED ∧
    "OUTLIER_HARD_PRICE_TOO_LOW" ∈ offerSoftHardValidated.validation.reasonCodes ∧
    offerSoftHardValidated.validation.confidence = .MEDIUM := by
  refine ⟨rfl, rfl, ?_, rfl⟩
  simp [offerSoftHardValidated]

/-! ## C3 — the validator can raise (code bug) -/

/-- C3, failing inputs: on a round-trip offer with no slices, and on one
whose first slice has no segments, the unguarded
`offer.slices[0].segments[0].carrierIata` read throws (modelled `none`)
instead of annotating `MISSING_INBOUND_SLICE`. -/
theorem validateOffer_raises_on_degenerate :
    validateOffer offerNoSlices = none ∧ validateOffer offerEmptySegments = none :=
  ⟨rfl, rfl⟩

/-! ## C6 — carrier/distance plausibility -/

/-- C6: a long-haul destination flown by one of the reserved low-cost
codes (5J, AK) on the first outbound segment is quarantined with
`INVALID_CARRIER_FOR_DISTANCE`. -/
theorem validateOffer_longhaul_lcc_quarantined (offer : OfferCanonical)
    (s0 : FlightSlice) (seg0 : FlightSegment) (rest : List FlightSlice)
    (segs : List FlightSegment)
    (hsl : offer.slices = s0 :: rest) (hsg : s0.segments = seg0 :: segs)
    (hair : seg0.carrierIata = "5J" ∨ seg0.carrierIata = "AK")
    (hdest : isLongHaulDest offer.destinationIata = true) :
    ∃ v, validateOffer offer = some v ∧
      v.validation.status = .QUARANTINED ∧
      "INVALID_CARRIER_FOR_DISTANCE" ∈ v.validation.reasonCodes := by
  refine ⟨_, validateOffer_eq_of_shape offer s0 seg0 rest segs hsl hsg, ?_, ?_⟩
  all_goals
    have hmem := carrier_reason_mem offer seg0.carrierIata hair hdest
    have hne : offerReasons offer seg0.carrierIata ≠ [] := by
      intro h0
      rw [h0] at hmem
      exact List.not_mem_nil _ hmem
  · exact (verdictFor_of_reasons_ne offer seg0.carrierIata hne).1
  · rw [show ({ offer with validation := verdictFor offer seg0.carrierIata } :
        OfferCanonical).validation.reasonCodes =
        (verdictFor offer seg0.carrierIata).reasonCodes from rfl,
      (verdictFor_of_reasons_ne offer seg0.carrierIata hne).2]
    exact hmem

/-- C6, witness: MNL→SFO on 5J at displayed price 20000. -/
theorem validateOffer_longhaul_lcc_quarantined_witness :
    ∃ v, validateOffer (fixtureOffer "SFO" "5J" 20000) = some v ∧
      v.validation.status = .QUARANTINED ∧
      "INVALID_CARRIER_FOR_DISTANCE" ∈ v.validation.reasonCodes :=
  validateOffer_longhaul_lcc_quarantined (fixtureOffer "SFO" "5J" 20000)
    (fixtureSlice "outbound" "5J" "MNL" "SFO") (fixtureSegment "5J" "MNL" "SFO")
    [fixtureSlice "inbound" "5J" "SFO" "MNL"] [] rfl rfl (Or.inl rfl) rfl

/-! ## C7 — hard price floor for long-haul -/

/-- C7: a long-haul destination with displayed price under the floor
(`IMPOSSIBLE_PH_SFO_PRICE = 15000`) gets `OUTLIER_HARD_PRICE_TOO_LOW`
regardless of carrier. -/
theorem validateOffer_longhaul_price_floor (offer : OfferCanonical)
    (s0 : FlightSlice) (seg0 : FlightSegment) (rest : List FlightSlice)
    (segs : List FlightSegment)
    (hsl : offer.slices = s0 :: rest) (hsg : s0.segments = seg0 :: segs)
    (hdest : isLongHaulDest offer.destinationIata = true)
    (hprice : offer.price.totalPHP < IMPOSSIBLE_PH_SFO_PRICE) :
    ∃ v, validateOffer offer = some v ∧
      "OUTLIER_HARD_PRICE_TOO_LOW" ∈ v.validation.reasonCodes := by
  refine ⟨_, validateOffer_eq_of_shape offer s0 seg0 rest segs hsl hsg, ?_⟩
  have hmem := price_reason_mem offer seg0.carrierIata hdest hprice
  have hne : offerReasons offer seg0.carrierIata ≠ [] := by
    intro h0
    rw [h0] at hmem
    exact List.not_mem_nil _ hmem
  rw [show ({ offer with validation := verdictFor offer seg0.carrierIata } :
      OfferCanonical).validation.reasonCodes =
      (verdictFor offer seg0.carrierIata).reasonCodes from rfl,
    (verdictFor_of_reasons_ne offer seg0.carrierIata hne).2]
  exact hmem

/-- C7, witness: MNL→LAX on PR at displayed price 12000 < 15000. -/
theorem validateOffer_longhaul_price_floor_witness :
    ∃ v, validateOffer (fixtureOffer "LAX" "PR" 12000) = some v ∧
      "OUTLIER_HARD_PRICE_TOO_LOW" ∈ v.validation.reasonCodes :=
  validateOffer_longhaul_price_floor (fixtureOffer "LAX" "PR" 12000)
    (fixtureSlice "outbound" "PR" "MNL" "LAX") (fixtureSegment "PR" "MNL" "LAX")
    [fixtureSlice "inbound" "PR" "LAX" "MNL"] [] rfl rfl rfl (by decide)

/-! ## C10 — the validator only touches the verdict -/

/-- C10: `validateOffer` changes nothing but `validation`: every other
field of the returned offer equals the input's. -/
theorem validateOffer_frame (offer v : OfferCanonical)
    (h : validateOffer offer = some v) :
    v.id = offer.id ∧ v.provider = offer.provider ∧ v.tripType = offer.tripType ∧
    v.originIata = offer.originIata ∧ v.destinationIata = offer.destinationIata ∧
    v.departDate = offer.departDate ∧ v.returnDate = offer.returnDate ∧
    v.passengers = offer.passengers ∧ v.cabin = offer.cabin ∧
    v.price = offer.price ∧ v.slices = offer.slices ∧ v.meta = offer.meta := by
  obtain ⟨val, rfl⟩ := validateOffer_shape offer v h
  exact ⟨rfl, rfl, rfl, rfl, rfl, rfl, rfl, rfl, rfl, rfl, rfl, rfl⟩

/-- C10, witness: at `offerSoftHard` the validator rewrites the verdict and
every other field of the returned offer is unchanged. -/
theorem validateOffer_frame_witness :
    offerSoftHardValidated.id = offerSoftHard.id ∧
    offerSoftHardValidated.provider = offerSoftHard.provider ∧
    offerSoftHardValidated.tripType = offerSoftHard.tripType ∧
    offerSoftHardValidated.originIata = offerSoftHard.originIata ∧
    offerSoftHardValidated.destinationIata = offerSoftHard.destinationIata ∧
    offerSoftHardValidated.departDate = offerSoftHard.departDate ∧
    offerSoftHardValidated.returnDate = offerSoftHard.returnDate ∧
    offerSoftHardValidated.passengers = offerSoftHard.passengers ∧
    offerSoftHardValidated.cabin = offerSoftHard.cabin ∧
    offerSoftHardValidated.price = offerSoftHard.price ∧
    offerSoftHardValidated.slices = offerSoftHard.slices ∧
    offerSoftHardValidated.meta = offerSoftHard.meta :=
  validateOffer_frame offerSoftHard offerSoftHardValidated rfl

/-! ## C9 — score monotonicity -/

/-- On an offer with at least one slice, the score is the weighted blend of
normalized price and normalized quality of lines 207-210. -/
theorem calculateOfferScore_of_slices (o : OfferCanonical) (s0 : FlightSlice)
    (rest : List FlightSlice) (hsl : o.slices = s0 :: rest) :
    calculateOfferScore o =
      some (PRICE_WEIGHT * (o.price.totalPHP / 50000) +
        QUALITY_WEIGHT *
          ((s0.stopsCount + ((rest.head?.map FlightSlice.stopsCount).getD 0)) * 5 +
            (s0.totalDurationMin + ((rest.head?.map FlightSlice.totalDurationMin).getD 0)) / 600)) := by
  simp only [calculateOfferScore, hsl]

/-- The score decomposes over the total stops and duration of
lines 203-204. -/
theorem score_decomp (o : OfferCanonical) (q st du : ℚ)
    (hq : calculateOfferScore o = some q) (hs : offerTotalStops o = some st)
    (hd : offerTotalDuration o = some du) :
    q = PRICE_WEIGHT * (o.price.totalPHP / 50000) +
      QUALITY_WEIGHT * (st * 5 + du / 600) := by
  cases hsl : o.slices with
  | nil =>
    unfold calculateOfferScore at hq
    rw [hsl] at hq
    simp at hq
  | cons s0 rest =>
    rw [calculateOfferScore_of_slices o s0 rest hsl] at hq
    unfold offerTotalStops at hs
    unfold offerTotalDuration at hd
    rw [hsl] at hs hd
    simp only [Option.some.injEq] at hq hs hd
    rw [← hq, ← hs, ← hd]

/-- C9: with the positive weights `PRICE_WEIGHT = 0.75` and
`QUALITY_WEIGHT = 0.25`, the score is monotonically non-decreasing in
displayed price at fixed total stops and duration, and in total stops and
duration at fixed displayed price. -/
theorem calculateOfferScore_monotone (o₁ o₂ : OfferCanonical) (q₁ q₂ st₁ st₂ du₁ du₂ : ℚ)
    (hq₁ : calculateOfferScore o₁ = some q₁) (hq₂ : calculateOfferScore o₂ = some q₂)
    (hs₁ : offerTotalStops o₁ = some st₁) (hs₂ : offerTotalStops o₂ = some st₂)
    (hd₁ : offerTotalDuration o₁ = some du₁) (hd₂ : offerTotalDuration o₂ = some du₂) :
    (st₁ = st₂ → du₁ = du₂ → o₁.price.totalPHP ≤ o₂.price.totalPHP → q₁ ≤ q₂) ∧
    (o₁.price.totalPHP = o₂.price.totalPHP → st₁ ≤ st₂ → du₁ ≤ du₂ → q₁ ≤ q₂) := by
  rw [score_decomp o₁ q₁ st₁ du₁ hq₁ hs₁ hd₁, score_decomp o₂ q₂ st₂ du₂ hq₂ hs₂ hd₂]
  unfold PRICE_WEIGHT QUALITY_WEIGHT
  constructor
  · intro hst hdu hp
    rw [hst, hdu]
    have h : o₁.price.totalPHP / 50000 ≤ o₂.price.totalPHP / 50000 :=
      (div_le_div_iff_of_pos_right (by norm_num)).mpr hp
    linarith
  · intro hp hst hdu
    rw [hp]
    have h1 : st₁ * 5 ≤ st₂ * 5 := by linarith
    have h2 : du₁ / 600 ≤ du₂ / 600 := (div_le_div_iff_of_pos_right (by norm_num)).mpr hdu
    linarith

/-- C9, witness: two MNL→NRT offers with identical itineraries at displayed
prices 4000 and 6000; the monotonicity instance at these offers. -/
theorem calculateOfferScore_monotone_witness :
    (((0 : ℚ) + 0 = 0 + 0 → (200 : ℚ) + 200 = 200 + 200 →
      (fixtureOffer "NRT" "PR" 4000).price.totalPHP ≤
        (fixtureOffer "NRT" "PR" 6000).price.totalPHP →
      PRICE_WEIGHT * ((fixtureOffer "NRT" "PR" 4000).price.totalPHP / 50000) +
          QUALITY_WEIGHT * (((0 : ℚ) + 0) * 5 + ((200 : ℚ) + 200) / 600) ≤
        PRICE_WEIGHT * ((fixtureOffer "NRT" "PR" 6000).price.totalPHP / 50000) +
          QUALITY_WEIGHT * (((0 : ℚ) + 0) * 5 + ((200 : ℚ) + 200) / 600)) ∧
     ((fixtureOffer "NRT" "PR" 4000).price.totalPHP =
        (fixtureOffer "NRT" "PR" 6000).price.totalPHP →
      (0 : ℚ) + 0 ≤ 0 + 0 → (200 : ℚ) + 200 ≤ 200 + 200 →
      PRICE_WEIGHT * ((fixtureOffer "NRT" "PR" 4000).price.totalPHP / 50000) +
          QUALITY_WEIGHT * (((0 : ℚ) + 0) * 5 + ((200 : ℚ) + 200) / 600) ≤
        PRICE_WEIGHT * ((fixtureOffer "NRT" "PR" 6000).price.totalPHP / 50000) +
          QUALITY_WEIGHT * (((0 : ℚ) + 0) * 5 + ((200 : ℚ) + 200) / 600))) :=
  calculateOfferScore_monotone (fixtureOffer "NRT" "PR" 4000) (fixtureOffer "NRT" "PR" 6000)
    _ _ _ _ _ _ rfl rfl rfl rfl rfl rfl

/-! ## C5 — per-country aggregation -/

/-- With no slices at all, the read of `offer.slices[0]` throws. -/
theorem validateOffer_none_of_no_slices (o : OfferCanonical) (hsl : o.slices = []) :
    validateOffer o = none := by
  simp only [validateOffer, hsl]

/-- With an empty first-slice segment list, the read of
`segments[0].carrierIata` throws. -/
theorem validateOffer_none_of_no_segments (o : OfferCanonical) (s0 : FlightSlice)
    (rest : List FlightSlice) (hsl : o.slices = s0 :: rest) (hsg : s0.segments = []) :
    validateOffer o = none := by
  simp only [validateOffer, hsl, hsg]

/-- Full shape of a successful validation: the slices that were read and
the returned offer. -/
theorem validateOffer_some_shape (o v : OfferCanonical) (h : validateOffer o = some v) :
    ∃ s0 rest seg0 segs, o.slices = s0 :: rest ∧ s0.segments = seg0 :: segs ∧
      v = { o with validation := verdictFor o seg0.carrierIata } := by
  obtain ⟨s0, rest, hsl⟩ : ∃ s0 rest, o.slices = s0 :: rest := by
    cases hs : o.slices with
    | nil => rw [validateOffer_none_of_no_slices o hs] at h; cases h
    | cons a b => exact ⟨a, b, rfl⟩
  obtain ⟨seg0, segs, hsg⟩ : ∃ seg0 segs, s0.segments = seg0 :: segs := by
    cases hg : s0.segments with
    | nil => rw [validateOffer_none_of_no_segments o s0 rest hsl hg] at h; cases h
    | cons a b => exact ⟨a, b, rfl⟩
  refine ⟨s0, rest, seg0, segs, hsl, hsg, ?_⟩
  rw [validateOffer_eq_of_shape o s0 seg0 rest segs hsl hsg] at h
  exact (Option.some_inj.mp h).symm

/-- A validated offer still has its slices, so it can be scored. -/
theorem score_some_of_validated (o v : OfferCanonical) (h : validateOffer o = some v) :
    ∃ s, calculateOfferScore v = some s := by
  obtain ⟨s0, rest, seg0, segs, hsl, -, rfl⟩ := validateOffer_some_shape o v h
  exact ⟨_, calculateOfferScore_of_slices _ s0 rest hsl⟩

/-- Everything `collectValid` keeps has verdict `VALID` and is the
validation of one of the input offers. -/
theorem collectValid_mem (offers valids : List OfferCanonical)
    (h : collectValid offers = some valids) :
    ∀ v ∈ valids, v.validation.status = .VALID ∧ ∃ o ∈ offers, validateOffer o = some v := by
  induction offers generalizing valids with
  | nil =>
    obtain rfl : [] = valids := Option.some_inj.mp h
    intro v hv
    simp at hv
  | cons o rest ih =>
    unfold collectValid at h
    cases hv : validateOffer o with
    | none => rw [hv] at h; simp at h
    | some w =>
      rw [hv] at h
      cases hrest : collectValid rest with
      | none => rw [hrest] at h; simp at h
      | some vs =>
        rw [hrest] at h
        simp only [Option.bind_eq_bind, Option.some_bind] at h
        by_cases hst : w.validation.status = .VALID
        · rw [if_pos hst] at h
          obtain rfl : w :: vs = valids := Option.some_inj.mp h
          intro z hz
          rcases List.mem_cons.mp hz with rfl | hz'
          · exact ⟨hst, o, List.mem_cons_self o rest, hv⟩
          · obtain ⟨hzst, o', ho', hval⟩ := ih vs hrest z hz'
            exact ⟨hzst, o', List.mem_cons_of_mem o ho', hval⟩
        · rw [if_neg hst] at h
          obtain rfl : vs = valids := Option.some_inj.mp h
          intro z hz
          obtain ⟨hzst, o', ho', hval⟩ := ih vs hrest z hz
          exact ⟨hzst, o', List.mem_cons_of_mem o ho', hval⟩

/-- Scoring a list of offers that are all scoreable: the paired list. -/
theorem mapM_score_spec (l : List OfferCanonical)
    (hall : ∀ x ∈ l, ∃ s, calculateOfferScore x = some s) :
    ∃ l', (l.mapM fun o => (calculateOfferScore o).map fun s => (o, s)) = some l' ∧
      l'.map Prod.fst = l ∧ ∀ p ∈ l', calculateOfferScore p.1 = some p.2 := by
  induction l with
  | nil => exact ⟨[], rfl, rfl, by simp⟩
  | cons x xs ih =>
    obtain ⟨s, hs⟩ := hall x (List.mem_cons_self x xs)
    obtain ⟨l', hl', hmap, hpairs⟩ := ih fun y hy => hall y (List.mem_cons_of_mem _ hy)
    refine ⟨(x, s) :: l', ?_, by simp [hmap], ?_⟩
    · rw [List.mapM_cons, hs, hl']
      rfl
    · intro p hp
      rcases List.mem_cons.mp hp with rfl | hp'
      · exact hs
      · exact hpairs p hp'

/-- `firstMinBy` picks an element of the list. -/
theorem firstMinBy_mem {α : Type} (f : α → ℚ) (x : α) (xs : List α) :
    firstMinBy f x xs ∈ x :: xs := by
  induction xs generalizing x with
  | nil => simp [firstMinBy]
  | cons y ys ih =>
    simp only [firstMinBy, List.foldl_cons]
    have h := ih (if f y < f x then y else x)
    simp only [firstMinBy] at h
    rcases List.mem_cons.mp h with he | he
    · rw [he]
      split <;> simp
    · simp [List.mem_cons.mpr, he]

/-- `firstMinBy` attains the minimum `f`-value of the list. -/
theorem firstMinBy_le {α : Type} (f : α → ℚ) (x : α) (xs : List α) :
    ∀ z ∈ x :: xs, f (firstMinBy f x xs) ≤ f z := by
  induction xs generalizing x with
  | nil =>
    intro z hz
    rcases List.mem_cons.mp hz with rfl | hz'
    · simp [firstMinBy]
    · simp at hz'
  | cons y ys ih =>
    intro z hz
    have hstep : f (if f y < f x then y else x) ≤ f x ∧
        f (if f y < f x then y else x) ≤ f y := by
      split
      next hlt => exact ⟨le_of_lt hlt, le_refl _⟩
      next hlt => exact ⟨le_refl _, le_of_not_lt hlt⟩
    have hself : f (firstMinBy f (if f y < f x then y else x) ys) ≤
        f (if f y < f x then y else x) :=
      ih (if f y < f x then y else x) _ (List.mem_cons_self _ _)
    have hgoal : firstMinBy f x (y :: ys) = firstMinBy f (if f y < f x then y else x) ys := rfl
    rw [hgoal]
    rcases List.mem_cons.mp hz with rfl | hz'
    · exact le_trans hself hstep.1
    · rcases List.mem_cons.mp hz' with rfl | hz''
      · exact le_trans hself hstep.2
      · exact ih (if f y < f x then y else x) z (List.mem_cons_of_mem _ hz'')

/-- C5: per country and month, only offers validating to `VALID` are
retained; a country with no valid offer yields no candidate; otherwise
`cheapest` minimizes displayed price and `recommended` minimizes score over
the retained offers. -/
theorem countryStep_spec (offers valids : List OfferCanonical)
    (h : collectValid offers = some valids) :
    (∀ v ∈ valids, v.validation.status = .VALID ∧ ∃ o ∈ offers, validateOffer o = some v) ∧
    (valids = [] → countryStep offers = some none) ∧
    (∀ v0 vs, valids = v0 :: vs →
      ∃ cand, countryStep offers = some (some cand) ∧
        cand.cheapest ∈ valids ∧ cand.recommended ∈ valids ∧
        (∀ v ∈ valids, cand.cheapest.price.totalPHP ≤ v.price.totalPHP) ∧
        calculateOfferScore cand.recommended = some cand.score ∧
        (∀ v ∈ valids, ∃ sv, calculateOfferScore v = some sv ∧ cand.score ≤ sv)) := by
  refine ⟨collectValid_mem offers valids h, ?_, ?_⟩
  · intro hnil
    subst hnil
    simp [countryStep, h]
  · intro v0 vs hcons
    subst hcons
    have hall : ∀ x ∈ v0 :: vs, ∃ s, calculateOfferScore x = some s := by
      intro x hx
      obtain ⟨-, o, -, hval⟩ := collectValid_mem offers _ h x hx
      exact score_some_of_validated o x hval
    obtain ⟨l', hl', hmapfst, hpairs⟩ := mapM_score_spec (v0 :: vs) hall
    cases l' with
    | nil => simp at hmapfst
    | cons p0 ps =>
      have hrecmem : firstMinBy (fun pr => pr.2) p0 ps ∈ p0 :: ps :=
        firstMinBy_mem (fun pr => pr.2) p0 ps
      have hrecscore : calculateOfferScore (firstMinBy (fun pr => pr.2) p0 ps).1 =
          some (firstMinBy (fun pr => pr.2) p0 ps).2 :=
        hpairs _ hrecmem
      refine ⟨{ cheapest := firstMinBy (fun o => o.price.totalPHP) v0 vs
                recommended := (firstMinBy (fun pr => pr.2) p0 ps).1
                score := (firstMinBy (fun pr => pr.2) p0 ps).2 }, ?_, ?_, ?_, ?_, hrecscore, ?_⟩
      · simp only [countryStep, h, Option.bind_eq_bind, Option.some_bind, hl', hrecscore]
        rfl
      · exact firstMinBy_mem (fun o => o.price.totalPHP) v0 vs
      · have : (firstMinBy (fun pr => pr.2) p0 ps).1 ∈ (p0 :: ps).map Prod.fst :=
          List.mem_map_of_mem Prod.fst hrecmem
        rw [hmapfst] at this
        exact this
      · exact fun v hv => firstMinBy_le (fun o => o.price.totalPHP) v0 vs v hv
      · intro v hv
        rw [← hmapfst] at hv
        obtain ⟨p, hp, hpv⟩ := List.mem_map.mp hv
        refine ⟨p.2, ?_, ?_⟩
        · rw [← hpv]
          exact hpairs p hp
        · exact firstMinBy_le (fun pr => pr.2) p0 ps p hp

/-- C5, witness: one clean offer (MNL→NRT on PR at 10000) survives
validation and is both the cheapest and the recommended pick. -/
theorem countryStep_spec_witness :
    ∃ cand, countryStep [fixtureOffer "NRT" "PR" 10000] = some (some cand) ∧
      cand.cheapest ∈ [fixtureOffer "NRT" "PR" 10000] ∧
      cand.recommended ∈ [fixtureOffer "NRT" "PR" 10000] ∧
      (∀ v ∈ [fixtureOffer "NRT" "PR" 10000],
        cand.cheapest.price.totalPHP ≤ v.price.totalPHP) ∧
      calculateOfferScore cand.recommended = some cand.score ∧
      (∀ v ∈ [fixtureOffer "NRT" "PR" 10000],
        ∃ sv, calculateOfferScore v = some sv ∧ cand.score ≤ sv) := by
  obtain ⟨-, -, h3⟩ :=
    countryStep_spec [fixtureOffer "NRT" "PR" 10000] [fixtureOffer "NRT" "PR" 10000] rfl
  exact h3 (fixtureOffer "NRT" "PR" 10000) [] rfl

/-! ## C4 — the diversification cap -/

theorem mem_insertCand {z x : Candidate} {l : List Candidate} :
    z ∈ insertCand x l ↔ z = x ∨ z ∈ l := by
  induction l with
  | nil => simp [insertCand]
  | cons y ys ih =>
    simp only [insertCand]
    split
    · simp only [List.mem_cons, ih]
      tauto
    · simp only [List.mem_cons]

theorem mem_sortCands {z : Candidate} {l : List Candidate} :
    z ∈ sortCands l ↔ z ∈ l := by
  induction l with
  | nil => simp [sortCands]
  | cons x xs ih =>
    simp only [sortCands, mem_insertCand, ih, List.mem_cons]

theorem insertCand_ne_nil (x : Candidate) (l : List Candidate) :
    insertCand x l ≠ [] := by
  cases l with
  | nil => simp [insertCand]
  | cons y ys =>
    simp only [insertCand]
    split <;> simp

theorem sortCands_eq_nil_iff {l : List Candidate} : sortCands l = [] ↔ l = [] := by
  cases l with
  | nil => simp [sortCands]
  | cons x xs =>
    simp only [sortCands]
    constructor
    · intro h
      exact absurd h (insertCand_ne_nil x (sortCands xs))
    · intro h
      cases h

/-- The head of the sorted candidate list scores no worse than anybody in
the pool: `candidates[0]` after the sort of line 62 is the globally
best-scored candidate. -/
theorem sortCands_head_min {l : List Candidate} {h : Candidate} {t : List Candidate}
    (hsort : sortCands l = h :: t) : ∀ z ∈ l, h.score ≤ z.score := by
  induction l generalizing h t with
  | nil => cases hsort
  | cons x xs ih =>
    simp only [sortCands] at hsort
    cases hxs : sortCands xs with
    | nil =>
      rw [hxs] at hsort
      simp only [insertCand] at hsort
      obtain ⟨rfl, rfl⟩ : x = h ∧ ([] : List Candidate) = t := List.cons.inj hsort
      intro z hz
      rcases List.mem_cons.mp hz with rfl | hz'
      · exact le_refl _
      · rw [sortCands_eq_nil_iff.mp hxs] at hz'
        simp at hz'
    | cons h' t' =>
      rw [hxs] at hsort
      simp only [insertCand] at hsort
      split at hsort
      next hlt =>
        obtain rfl : h' = h := (List.cons.inj hsort).1
        intro z hz
        rcases List.mem_cons.mp hz with rfl | hz'
        · exact le_of_lt hlt
        · exact ih hxs z hz'
      next hlt =>
        obtain rfl : x = h := (List.cons.inj hsort).1
        intro z hz
        rcases List.mem_cons.mp hz with rfl | hz'
        · exact le_refl _
        · exact le_trans (le_of_not_lt hlt) (ih hxs z hz')

theorem winCount_cons (c : String) (w : Candidate) (ws : List Candidate) :
    winCount c (w :: ws) = (if w.country.code = c then 1 else 0) + winCount c ws := by
  simp only [winCount, List.filter_cons]
  by_cases hc : w.country.code = c
  · simp only [hc, beq_self_eq_true, if_true, List.length_cons, if_pos rfl]
    omega
  · simp [hc]

theorem usageAfter_zero (d : Bool) (u : String → ℕ) (pools : List (List Candidate)) :
    usageAfter d u pools 0 = u := by
  cases pools <;> rfl

theorem stepUsage_of_none {d : Bool} {u : String → ℕ} {pool : List Candidate}
    (hpick : pickWinner d (sortCands pool) u = none) : stepUsage d u pool = u := by
  simp [stepUsage, hpick]

theorem stepUsage_of_some {d : Bool} {u : String → ℕ} {pool : List Candidate}
    {w : Candidate} (hpick : pickWinner d (sortCands pool) u = some w) :
    stepUsage d u pool = bumpUsage u w.country.code := by
  simp [stepUsage, hpick]

/-- A diversified pick is either of a country still under the cap, or the
fallback: every candidate country of the pool is at the cap and the winner
is a minimum-score candidate. -/
theorem pickWinner_true_cases {pool : List Candidate} {u : String → ℕ} {w : Candidate}
    (hpick : pickWinner true (sortCands pool) u = some w) :
    w ∈ sortCands pool ∧
      (u w.country.code < 2 ∨
        ((∀ x ∈ pool, 2 ≤ u x.country.code) ∧ ∀ z ∈ pool, w.score ≤ z.score)) := by
  obtain ⟨c0, rest0, hsort⟩ : ∃ c0 rest0, sortCands pool = c0 :: rest0 := by
    cases hs : sortCands pool with
    | nil => rw [hs] at hpick; cases hpick
    | cons a b => exact ⟨a, b, rfl⟩
  rw [hsort] at hpick
  have hred : pickWinner true (c0 :: rest0) u =
      (match (c0 :: rest0).find? (fun cand => u cand.country.code < 2) with
        | some cand => some cand
        | none => some c0) := rfl
  rw [hred] at hpick
  cases hfind : (c0 :: rest0).find? (fun cand => u cand.country.code < 2) with
  | some cfound =>
    rw [hfind] at hpick
    obtain rfl : cfound = w := Option.some_inj.mp hpick
    constructor
    · rw [hsort]
      exact List.mem_of_find?_eq_some hfind
    · have hp := List.find?_some hfind
      exact Or.inl (of_decide_eq_true hp)
  | none =>
    rw [hfind] at hpick
    obtain rfl : c0 = w := Option.some_inj.mp hpick
    constructor
    · rw [hsort]
      exact List.mem_cons_self _ _
    · right
      refine ⟨?_, sortCands_head_min hsort⟩
      intro x hx
      have hmem : x ∈ c0 :: rest0 := by
        rw [← hsort]
        exact mem_sortCands.mpr hx
      have hnf := List.find?_eq_none.mp hfind x hmem
      simp only [decide_eq_true_eq] at hnf
      omega

/-- The cap invariant, generalized over the starting counter: along a
diversified build either the country's wins keep its counter within
`max (u c) 2`, or some month selected it with every pool country already
at the cap — and then the winner was the best-scored candidate. -/
theorem runBuild_cap (pools : List (List Candidate)) : ∀ (u : String → ℕ) (c : String),
    u c + winCount c (runBuild true u pools) ≤ max (u c) 2 ∨
    ∃ n w pool, pools.get? n = some pool ∧ winnerAt true u pools n = some w ∧
      w.country.code = c ∧
      (∀ cand ∈ pool, 2 ≤ usageAfter true u pools n cand.country.code) ∧
      (∀ cand ∈ pool, w.score ≤ cand.score) := by
  induction pools with
  | nil =>
    intro u c
    left
    simp only [runBuild, winCount, List.filter_nil, List.length_nil, Nat.add_zero]
    exact le_max_left _ _
  | cons pool rest ih =>
    intro u c
    cases hpick : pickWinner true (sortCands pool) u with
    | none =>
      rcases ih u c with hA | ⟨n, w, pool', h1, h2, h3, h4, h5⟩
      · left
        simpa only [runBuild, hpick] using hA
      · right
        refine ⟨n + 1, w, pool', by simpa using h1, ?_, h3, ?_, h5⟩
        · show winnerAt true (stepUsage true u pool) rest n = some w
          rwa [stepUsage_of_none hpick]
        · show ∀ cand ∈ pool', 2 ≤ usageAfter true (stepUsage true u pool) rest n cand.country.code
          rwa [stepUsage_of_none hpick]
    | some w =>
      have hrun : runBuild true u (pool :: rest) =
          w :: runBuild true (bumpUsage u w.country.code) rest := by
        simp [runBuild, hpick]
      have hstep : stepUsage true u pool = bumpUsage u w.country.code :=
        stepUsage_of_some hpick
      obtain ⟨-, hcases⟩ := pickWinner_true_cases hpick
      by_cases hc : w.country.code = c
      · rcases hcases with hu | ⟨hcap, hmin⟩
        · have hu' : bumpUsage u w.country.code c = u c + 1 := by
            simp only [bumpUsage]
            rw [if_pos hc.symm]
          rcases ih (bumpUsage u w.country.code) c with hA | ⟨n, w', pool', h1, h2, h3, h4, h5⟩
          · left
            rw [hrun, winCount_cons, if_pos hc]
            rw [hu'] at hA
            rw [hc] at hu
            omega
          · right
            refine ⟨n + 1, w', pool', by simpa using h1, ?_, h3, ?_, h5⟩
            · show winnerAt true (stepUsage true u pool) rest n = some w'
              rwa [hstep]
            · show ∀ cand ∈ pool', 2 ≤ usageAfter true (stepUsage true u pool) rest n cand.country.code
              rwa [hstep]
        · right
          refine ⟨0, w, pool, rfl, ?_, hc, ?_, hmin⟩
          · show pickWinner true (sortCands pool) u = some w
            exact hpick
          · rw [usageAfter_zero]
            exact hcap
      · have hu' : bumpUsage u w.country.code c = u c := by
          simp only [bumpUsage]
          rw [if_neg (fun hcc => hc hcc.symm)]
        rcases ih (bumpUsage u w.country.code) c with hA | ⟨n, w', pool', h1, h2, h3, h4, h5⟩
        · left
          rw [hrun, winCount_cons, if_neg hc]
          rw [hu'] at hA
          omega
        · right
          refine ⟨n + 1, w', pool', by simpa using h1, ?_, h3, ?_, h5⟩
          · show winnerAt true (stepUsage true u pool) rest n = some w'
            rwa [hstep]
          · show ∀ cand ∈ pool', 2 ≤ usageAfter true (stepUsage true u pool) rest n cand.country.code
            rwa [hstep]

/-- C4: in a diversified build from a fresh counter, a country either wins
at most 2 months, or some month picked it with every candidate country of
that month's pool already at the cap of 2 — and that month's winner was a
best-scored (minimum-score) candidate of the pool. -/
theorem monthly_diversification_cap (pools : List (List Candidate)) (c : String) :
    winCount c (runBuild true zeroUsage pools) ≤ 2 ∨
    ∃ n w pool, pools.get? n = some pool ∧ winnerAt true zeroUsage pools n = some w ∧
      w.country.code = c ∧
      (∀ cand ∈ pool, 2 ≤ usageAfter true zeroUsage pools n cand.country.code) ∧
      (∀ cand ∈ pool, w.score ≤ cand.score) := by
  rcases runBuild_cap pools zeroUsage c with hA | hB
  · left
    simp only [zeroUsage, Nat.zero_add] at hA
    omega
  · right
    exact hB

/-! ## C8 — the yearly trend series -/

/-- Every generated raw offer structurally has exactly two one-segment
slices (outbound, inbound). -/
theorem genOneRawOffer_slices (params : TrackedQuery) (destIata destCity dd rd : String)
    (rng : ℕ → ℚ) (i k : ℕ) :
    ∃ s0 s1 g0 g1,
      (genOneRawOffer params destIata destCity dd rd rng i k).1.slices = [s0, s1] ∧
      s0.segments = [g0] ∧ s1.segments = [g1] :=
  ⟨_, _, _, _, rfl, rfl, rfl⟩

/-- One trend point always builds: the day-15 sample exists, validates
without throwing, and the point's fields come from the validated offer. -/
theorem trendPoint_some (params : TrackedQuery) (destIata oid fxTs nowTs : String)
    (rng : ℕ → ℚ) (month k : ℕ) :
    ∃ pt kg raws raw v,
      trendPoint params destIata oid fxTs nowTs rng month k = some (pt, kg) ∧
      generateRawMockOffers params month 15 destIata "City" rng k = (raws, kg) ∧
      raws.head? = some raw ∧
      validateOffer (normalizeOffer oid fxTs raw) = some v ∧
      pt.cheapest = v.price.totalPHP ∧
      pt.recommended = (jround (v.price.totalPHP * 1.1) : ℚ) ∧
      pt.verified = none ∧
      pt.confidence = v.validation.confidence := by
  obtain ⟨s0, s1, g0, g1, hsl, hsg, -⟩ :=
    genOneRawOffer_slices params destIata "City"
      ("2026-" ++ pad2 (month + 1) ++ "-" ++ pad2 15)
      ("2026-" ++ pad2 (month + 1) ++ "-" ++ pad2 (15 + params.tripLengthNights)) rng 0 k
  set raw : RawOffer :=
    (genOneRawOffer params destIata "City"
      ("2026-" ++ pad2 (month + 1) ++ "-" ++ pad2 15)
      ("2026-" ++ pad2 (month + 1) ++ "-" ++ pad2 (15 + params.tripLengthNights))
      rng 0 k).1 with hraw
  set noff : OfferCanonical := normalizeOffer oid fxTs raw with hnoff
  have hnsl : noff.slices = s0 :: [s1] := hsl
  have hval : validateOffer noff = some { noff with validation := verdictFor noff g0.carrierIata } :=
    validateOffer_eq_of_shape noff s0 g0 [s1] [] hnsl hsg
  refine ⟨{ month := "2026-" ++ pad2 (month + 1)
            monthName := (MONTH_NAMES.getD month "").take 3
            cheapest := ({ noff with validation := verdictFor noff g0.carrierIata } :
              OfferCanonical).price.totalPHP
            recommended := (jround (({ noff with
              validation := verdictFor noff g0.carrierIata } :
                OfferCanonical).price.totalPHP * 1.1) : ℚ)
            verified := none
            confidence := ({ noff with validation := verdictFor noff g0.carrierIata } :
              OfferCanonical).validation.confidence
            updatedAt := nowTs },
          (generateRawMockOffers params month 15 destIata "City" rng k).2,
          (generateRawMockOffers params month 15 destIata "City" rng k).1,
          raw, { noff with validation := verdictFor noff g0.carrierIata },
          ?_, rfl, rfl, hval, rfl, rfl, rfl, rfl⟩
  simp only [trendPoint, Option.bind_eq_bind]
  rw [show (generateRawMockOffers params month 15 destIata "City" rng k).1.head? =
      some raw from rfl, Option.some_bind, ← hnoff, hval, Option.some_bind]
  rfl

/-- The trend loop from any starting month and cursor: it always succeeds,
yields one point per remaining month, and every point carries the day-15
sample of its month. -/
theorem buildTrendAux_spec (params : TrackedQuery) (destIata oid fxTs nowTs : String)
    (rng : ℕ → ℚ) :
    ∀ count month k,
      ∃ series, buildTrendAux params destIata oid fxTs nowTs rng month count k = some series ∧
        series.length = count ∧
        ∀ j, j < count → ∃ pt kj raws kg raw v,
          series.get? j = some pt ∧
          generateRawMockOffers params (month + j) 15 destIata "City" rng kj = (raws, kg) ∧
          raws.head? = some raw ∧
          validateOffer (normalizeOffer oid fxTs raw) = some v ∧
          pt.cheapest = v.price.totalPHP ∧
          pt.recommended = (jround (v.price.totalPHP * 1.1) : ℚ) ∧
          pt.verified = none ∧
          pt.confidence = v.validation.confidence := by
  intro count
  induction count with
  | zero =>
    intro month k
    exact ⟨[], rfl, rfl, fun j hj => absurd hj (Nat.not_lt_zero j)⟩
  | succ n ih =>
    intro month k
    obtain ⟨pt, kg, raws0, raw0, v0, hpt, hgen0, hhead0, hval0, hch0, hrec0, hver0, hconf0⟩ :=
      trendPoint_some params destIata oid fxTs nowTs rng month k
    obtain ⟨series, hser, hlen, hpoints⟩ := ih (month + 1) kg
    refine ⟨pt :: series, ?_, by simp [hlen], ?_⟩
    · simp only [buildTrendAux, Option.bind_eq_bind, hpt, Option.some_bind, hser]
      rfl
    · intro j hj
      cases j with
      | zero =>
        refine ⟨pt, k, raws0, kg, raw0, v0, rfl, ?_, hhead0, hval0, hch0, hrec0, hver0, hconf0⟩
        simpa using hgen0
      | succ j' =>
        have hj' : j' < n := by omega
        obtain ⟨pt', kj, raws', kg', raw', v', hget, hgen', hhead', hval', hch', hrec', hver', hconf'⟩ :=
          hpoints j' hj'
        refine ⟨pt', kj, raws', kg', raw', v', by simpa using hget, ?_, hhead', hval', hch', hrec', hver', hconf'⟩
        have harith : month + (j' + 1) = month + 1 + j' := by omega
        rw [harith]
        exact hgen'

/-- C8: `getYearlyTrend` always returns exactly 12 points, in month order
0-11; point `m` is built from the first raw offer generated for day 15 of
month `m`, its `recommended` equals `round(cheapest × 1.1)`, and its
`verified` slot is null. -/
theorem getYearlyTrend_spec (params : TrackedQuery) (destIata oid fxTs nowTs : String)
    (rng : ℕ → ℚ) :
    ∃ series, getYearlyTrend params destIata oid fxTs nowTs rng = some series ∧
      series.length = 12 ∧
      ∀ m, m < 12 → ∃ pt kj raws kg raw v,
        series.get? m = some pt ∧
        generateRawMockOffers params m 15 destIata "City" rng kj = (raws, kg) ∧
        raws.head? = some raw ∧
        validateOffer (normalizeOffer oid fxTs raw) = some v ∧
        pt.cheapest = v.price.totalPHP ∧
        pt.recommended = (jround (v.price.totalPHP * 1.1) : ℚ) ∧
        pt.verified = none ∧
        pt.confidence = v.validation.confidence := by
  obtain ⟨series, hser, hlen, hpts⟩ := buildTrendAux_spec params destIata oid fxTs nowTs rng 12 0 0
  refine ⟨series, hser, hlen, ?_⟩
  intro m hm
  simpa using hpts m hm

end DestinationScanner
